import Mathlib

/-!
Verification of the Multi-Source Price Resolution & Portfolio Valuation
Engine of the portfolio-tracker repository.

The development shallowly embeds the three source files:
 - `src/app/api/prices/route.ts` (the server batch-resolution endpoint `POST`),
 - `src/unnamed/part_000` (the v2 client page: `refreshPrices`, `totals`,
   `exportCSV`, `importCSV`),
 - `src/app/page.tsx` (the older v1 client page: `totals`, `importCSV`).

Modelling conventions:
 - JavaScript numbers are modelled by `JNum`: an exact rational for finite
   values plus the non-finite values `nan`, `inf` (+Infinity) and `ninf`
   (-Infinity).  Pure aggregation arithmetic (the valuation calculator) is
   modelled over `ℚ`.
 - JSON values are modelled by `JVal`; JS objects are association lists in
   which, as for `JSON.parse` and `Object.fromEntries`, a later binding of a
   key shadows an earlier one.
 - Upstream HTTP calls are oracles passed as explicit parameters: each call
   site receives the outcome (transport failure / non-success status /
   successful JSON body) that the network would have produced.
 - Price maps built by JS object assignment (`out[s] = p`) are association
   lists built with `setKV`, which overwrites in place, preserving the
   JS insertion-order semantics of object keys.
-/

/-- A JavaScript number: a finite (exact rational) value, `NaN`,
`+Infinity` or `-Infinity`. -/
inductive JNum where
  | fin (q : ℚ)
  | nan
  | inf
  | ninf
deriving DecidableEq, Repr

/-- JS comparison `x > 0`: false for `NaN` (any comparison with `NaN` is
false), true for `+Infinity`, false for `-Infinity`. -/
def jsGtZero : JNum → Bool
  | .fin q => decide (0 < q)
  | .nan => false
  | .inf => true
  | .ninf => false

/-- A JSON / JavaScript value as produced by `req.json()` or `res.json()`. -/
inductive JVal where
  | jnull
  | jbool (b : Bool)
  | jnum (n : JNum)
  | jstr (s : String)
  | jarr (xs : List JVal)
  | jobj (fields : List (String × JVal))

/-- Lookup of a key in a JS object's field list; a later duplicate binding
of the same key shadows an earlier one (the semantics of `JSON.parse` and
of object literals). -/
def jfieldLookup : List (String × JVal) → String → Option JVal
  | [], _ => none
  | (k, v) :: rest, key =>
      match jfieldLookup rest key with
      | some r => some r
      | none => if k = key then some v else none

/-- JS property access with optional chaining, `v?.[key]`: `none` when the
value is not an object or lacks the key. -/
def jget : JVal → String → Option JVal
  | .jobj fs, key => jfieldLookup fs key
  | _, _ => none

/-- JS truthiness of a value: `null`, `false`, `0`, `NaN` and `""` are
falsy; every other value (including empty arrays and objects) is truthy. -/
def jsTruthy : JVal → Bool
  | .jnull => false
  | .jbool b => b
  | .jnum (.fin q) => decide (q ≠ 0)
  | .jnum .nan => false
  | .jnum .inf => true
  | .jnum .ninf => true
  | .jstr s => decide (s ≠ "")
  | .jarr _ => true
  | .jobj _ => true

/-! ### Decimal rendering of numbers

`natToStrAux` renders a natural number in base 10 exactly as JS renders an
integral number; the fuel argument makes the recursion structural (fuel
`n + 1` always suffices since `n / 10 < n` for `n ≥ 10`). -/

/-- The base-10 digit character for `k % 10`. -/
def digitCh (k : Nat) : Char := Char.ofNat (48 + k % 10)

/-- Base-10 digit list of a natural number, most significant first.  The
fuel argument is only a structural-recursion device. -/
def natToStrAux : Nat → Nat → List Char
  | 0, _ => []
  | fuel + 1, n =>
      if n < 10 then [digitCh n]
      else natToStrAux fuel (n / 10) ++ [digitCh (n % 10)]

/-- Decimal string of a natural number, as JS renders an integral value. -/
def natToStr (n : Nat) : String := String.mk (natToStrAux (n + 1) n)

/-- Decimal string of an integer, as JS renders an integral value. -/
def intToStr (i : Int) : String :=
  if i < 0 then "-" ++ natToStr i.natAbs else natToStr i.natAbs

/-- Rendering of a finite JS number.  JS renders integral doubles exactly
as `intToStr` does; a non-integral rational (which JS would render as a
decimal or scientific literal) is rendered here as `num/den`.  Theorems
whose truth depends on the rendering of number fields carry an explicit
round-trip hypothesis, so the non-integral corner never decides a claim. -/
def ratToString (q : ℚ) : String :=
  if q.den = 1 then intToStr q.num else intToStr q.num ++ "/" ++ natToStr q.den

/-- JS `String(x)` for a number. -/
def jnumToString : JNum → String
  | .fin q => ratToString q
  | .nan => "NaN"
  | .inf => "Infinity"
  | .ninf => "-Infinity"

/-- JS `String(x)`.  For arrays JS joins the recursively stringified
elements with ","; the join is modelled one level deep (a directly nested
array contributes its own one-level join of atoms as ""), which is exact
for every flat array.  No claim inspects the stringification of a nested
array: the resulting string is only ever used as a currency lookup key. -/
def jsAtomString : JVal → String
  | .jnull => "null"
  | .jbool b => cond b "true" "false"
  | .jnum n => jnumToString n
  | .jstr s => s
  | .jarr _ => ""
  | .jobj _ => "[object Object]"

/-- JS `String(x)`, with arrays joined one level deep (see `jsAtomString`). -/
def jsStringOf : JVal → String
  | .jarr xs => String.intercalate "," (xs.map jsAtomString)
  | v => jsAtomString v

/-! ### String utilities mirroring the JS string methods used. -/

/-- JS `s.toUpperCase()` (the symbols involved are ASCII tickers). -/
def jsUpper (s : String) : String := String.mk (s.data.map Char.toUpper)

/-- JS `s.toLowerCase()` (applied to ASCII header names and currency codes). -/
def jsLower (s : String) : String := String.mk (s.data.map Char.toLower)

/-- Chars stripped by JS `trim()` (space, tab, CR, LF — the cases occurring
in CSV text). -/
def trimChars (l : List Char) : List Char :=
  ((l.dropWhile Char.isWhitespace).reverse.dropWhile Char.isWhitespace).reverse

/-- JS `s.trim()`. -/
def jsTrim (s : String) : String := String.mk (trimChars s.data)

/-! ### Association-list price maps

`out[s] = p` on a JS object either overwrites the existing entry in place
or appends a new one; `setKV` mirrors that, and `lookupKV` reads a key. -/

/-- Read a key from a price map. -/
def lookupKV (m : List (String × JNum)) (k : String) : Option JNum :=
  match m with
  | [] => none
  | (k₁, v) :: rest => if k₁ = k then some v else lookupKV rest k

/-- JS object assignment `m[k] = v`: overwrite in place or append. -/
def setKV : List (String × JNum) → String → JNum → List (String × JNum)
  | [], k, v => [(k, v)]
  | (k₁, v₁) :: rest, k, v =>
      if k₁ = k then (k₁, v) :: rest else (k₁, v₁) :: setKV rest k v

/-- The key list of a price map. -/
def keysOf (m : List (String × JNum)) : List String := m.map Prod.fst

theorem lookupKV_setKV (m : List (String × JNum)) (k : String) (v : JNum)
    (k₂ : String) :
    lookupKV (setKV m k v) k₂ = if k = k₂ then some v else lookupKV m k₂ := by
  induction m with
  | nil =>
      by_cases h : k = k₂ <;> simp [setKV, lookupKV, h]
  | cons hd tl ih =>
      obtain ⟨k₁, v₁⟩ := hd
      by_cases h₁ : k₁ = k
      · subst h₁
        by_cases h₂ : k₁ = k₂ <;> simp [setKV, lookupKV, h₂]
      · by_cases h₂ : k₁ = k₂
        · subst h₂
          have : ¬ k = k₁ := fun h => h₁ h.symm
          simp [setKV, lookupKV, h₁, this]
        · simp [setKV, lookupKV, h₁, h₂, ih]

theorem keysOf_setKV (m : List (String × JNum)) (k : String) (v : JNum) :
    keysOf (setKV m k v) = if k ∈ keysOf m then keysOf m else keysOf m ++ [k] := by
  induction m with
  | nil => simp [setKV, keysOf]
  | cons hd tl ih =>
      obtain ⟨k₁, v₁⟩ := hd
      by_cases h₁ : k₁ = k
      · subst h₁
        simp [setKV, keysOf]
      · have h₃ : ¬ k = k₁ := fun h => h₁ h.symm
        simp only [keysOf] at ih ⊢
        by_cases h₂ : k ∈ List.map Prod.fst tl <;>
          simp [setKV, h₁, h₃, h₂, List.mem_cons, ih]

theorem mem_setKV {m : List (String × JNum)} {k : String} {v : JNum}
    {kv : String × JNum} (hmem : kv ∈ setKV m k v) :
    kv = (k, v) ∨ kv ∈ m := by
  induction m with
  | nil =>
      simp [setKV] at hmem
      exact Or.inl hmem
  | cons hd tl ih =>
      obtain ⟨k₁, v₁⟩ := hd
      by_cases h₁ : k₁ = k
      · subst h₁
        simp [setKV] at hmem
        rcases hmem with h | h
        · exact Or.inl h
        · exact Or.inr (List.mem_cons_of_mem _ h)
      · simp [setKV, h₁] at hmem
        rcases hmem with h | h
        · exact Or.inr (h ▸ List.mem_cons_self _ _)
        · rcases ih h with h₂ | h₂
          · exact Or.inl h₂
          · exact Or.inr (List.mem_cons_of_mem _ h₂)

/-! ## Static tables of the source

`CG_ID` and `FIX` are from `src/app/api/prices/route.ts`; `DEMO_PRICES`
is the fallback table of the v2 page (`src/unnamed/part_000`); `DEMO` is
the fallback table of the v1 page (`src/app/page.tsx`). -/

/-- CoinGecko provider-id table (`route.ts`). -/
def CG_ID : String → Option String
  | "BTC" => some "bitcoin"
  | "ETH" => some "ethereum"
  | "XRP" => some "ripple"
  | _ => none

/-- Finnhub ticker-override table (`route.ts`). -/
def FIX : String → Option String
  | "DOL" => some "DOL.TO"
  | "ENB" => some "ENB.TO"
  | "VFV" => some "VFV.TO"
  | "QQC" => some "QQC.TO"
  | "XEQT" => some "XEQT.TO"
  | _ => none

/-- Demo fallback prices of the v2 page (`0.6` written as the exact
rational 3/5). -/
def DEMO_PRICES : String → Option ℚ
  | "DOL" => some 130
  | "ENB" => some 47
  | "VFV" => some 115
  | "QQC" => some 150
  | "XEQT" => some 35
  | "BTC" => some 62000
  | "ETH" => some 2500
  | "XRP" => some (Rat.mk' 3 5)
  | _ => none

/-- Demo fallback prices of the v1 page. -/
def DEMO : String → Option ℚ
  | "BTC" => some 62000
  | "ETH" => some 2500
  | "XRP" => some (Rat.mk' 3 5)
  | "DOL" => some 130
  | "ENB" => some 47
  | "VFV" => some 115
  | "QQC" => some 150
  | "XEQT" => some 35
  | "AAPL" => some 228
  | "MSFT" => some 410
  | "NVDA" => some 115
  | "SPY" => some 530
  | "QQQ" => some 470
  | "VOO" => some 470
  | _ => none

/-! ## The server batch-resolution endpoint (`POST` of `route.ts`)

Upstream HTTP calls are modelled as oracles.  The single CoinGecko call
can reject at the transport level (`throws`, which the route does NOT
catch locally — the outer `catch` turns it into the 400 response), return
a non-success status (`notOk`, skipped by the `if (r.ok)` guard), or
deliver a JSON body.  A Finnhub per-symbol call is wrapped in its own
`try`/`if (!r.ok) return` so every failure mode collapses to `fails`. -/

/-- Outcome of the single CoinGecko request. -/
inductive FetchOutcome where
  | throws
  | notOk
  | ok (j : JVal)

/-- Outcome of one Finnhub quote request (any transport error,
non-success status or JSON error is absorbed by the per-symbol
`try`/`return` and collapses to `fails`). -/
inductive EqOutcome where
  | fails
  | ok (j : JVal)

/-- The upstream world: the CoinGecko batched call's outcome and, per
final ticker, the Finnhub call's outcome. -/
structure Upstream where
  crypto : FetchOutcome
  equity : String → EqOutcome

/-- JS truthiness of `CG_ID[s]` (a `string | undefined`). -/
def jsTruthyOptStr : Option String → Bool
  | some s => decide (s ≠ "")
  | none => false

/-- The symbol classifier's crypto test: `s => CG_ID[s]` used as a filter
predicate (truthiness of the looked-up id). -/
def isCryptoSym (s : String) : Bool := jsTruthyOptStr (CG_ID s)

/-- The classifier's crypto bucket: `symbols.filter(s => CG_ID[s])`. -/
def cryptoBucket (symbols : List String) : List String :=
  symbols.filter isCryptoSym

/-- The classifier's equity bucket: `symbols.filter(s => !CG_ID[s])`. -/
def equityBucket (symbols : List String) : List String :=
  symbols.filter (fun s => !isCryptoSym s)

/-- `(body?.symbols || []).map(s => s.toUpperCase())`: yields the
upper-cased symbol list, or throws (→ `Except.error`) when the value is
not an array of strings. -/
def parseSymbols (body : JVal) : Except Unit (List String) :=
  let raw := match jget body "symbols" with
    | some v => if jsTruthy v then v else .jarr []
    | none => .jarr []
  match raw with
  | .jarr xs =>
      xs.mapM (fun x => match x with
        | .jstr s => Except.ok (jsUpper s)
        | _ => Except.error ())
  | _ => Except.error ()

/-- `String(body?.baseCurrency || "CAD").toLowerCase()`. -/
def baseCurrencyOf (body : JVal) : String :=
  jsLower (jsStringOf (match jget body "baseCurrency" with
    | some v => if jsTruthy v then v else .jstr "CAD"
    | none => .jstr "CAD"))

/-- The crypto loop body's value chain for one symbol:
`const id = CG_ID[s]; const p = j?.[id]?.[baseCurrency];` kept only when
`typeof p === "number" && p > 0`. -/
def cryptoQuote (j : JVal) (cur : String) (s : String) : Option JNum :=
  match CG_ID s with
  | none => none
  | some id =>
      match jget j id with
      | some inner =>
          match jget inner cur with
          | some (.jnum n) => if jsGtZero n then some n else none
          | _ => none
      | none => none

/-- The common store pattern of both adapter loops: keep the symbol's
quote when the chain produced one, otherwise leave the map alone. -/
def quoteStep (f : String → Option JNum) (out : List (String × JNum))
    (s : String) : List (String × JNum) :=
  match f s with
  | some n => setKV out s n
  | none => out

/-- One iteration of the crypto loop: store the quote when kept. -/
def cryptoStep (j : JVal) (cur : String) : List (String × JNum) → String →
    List (String × JNum) :=
  quoteStep (cryptoQuote j cur)

/-- The crypto block of `POST`: filter the crypto bucket, and when it is
non-empty issue the single CoinGecko call; a transport rejection is not
caught here (it propagates to the route's outer catch), a non-success
status skips the block, a JSON body feeds the loop. -/
def cryptoPhase (symbols : List String) (cur : String) (up : Upstream) :
    Except Unit (List (String × JNum)) :=
  let crypto := cryptoBucket symbols
  if crypto.isEmpty then Except.ok []
  else match up.crypto with
    | .throws => Except.error ()
    | .notOk => Except.ok []
    | .ok j => Except.ok (crypto.foldl (cryptoStep j cur) [])

/-- The equity request chain for one symbol:
`const ticker = FIX[sym] ?? sym;` then the Finnhub call, kept only when
`typeof q?.c === "number" && q.c > 0`; every failure yields nothing. -/
def equityQuote (up : Upstream) (sym : String) : Option JNum :=
  match up.equity ((FIX sym).getD sym) with
  | .fails => none
  | .ok q =>
      match jget q "c" with
      | some (.jnum n) => if jsGtZero n then some n else none
      | _ => none

/-- One equity task: store the quote when kept.  The per-symbol tasks all
write to distinct keys of `out` (or rewrite the same key with the same
value when the request list repeats a symbol), so the concurrent
`Promise.all` is modelled by a sequential fold. -/
def equityStep (up : Upstream) : List (String × JNum) → String →
    List (String × JNum) :=
  quoteStep (equityQuote up)

/-- Truthiness of the credential
`process.env.FINNHUB_API_KEY || process.env.NEXT_PUBLIC_FINNHUB_API_KEY`,
modelled as one optional string (absent or empty ⇒ falsy). -/
def jsKeyPresent : Option String → Bool
  | some s => decide (s ≠ "")
  | none => false

/-- The equity block of `POST`: skipped entirely unless the credential is
truthy and the equity bucket non-empty. -/
def equityPhase (symbols : List String) (finnhubKey : Option String)
    (up : Upstream) (out : List (String × JNum)) : List (String × JNum) :=
  let equities := equityBucket symbols
  if jsKeyPresent finnhubKey && !equities.isEmpty then
    equities.foldl (equityStep up) out
  else out

/-- The route's JSON response: HTTP status, the `prices` map, and whether
the body carried the `error: "bad-request"` field. -/
structure RouteResponse where
  status : Nat
  prices : List (String × JNum)
  error : Bool
deriving DecidableEq, Repr

/-- The outer-catch response: `{ prices: {}, error: "bad-request" }, 400`. -/
def errorResponse : RouteResponse :=
  { status := 400, prices := [], error := true }

/-- An inbound request body: either not valid JSON (so
`req.json().catch(() => ({}))` yields `{}`) or a parsed JSON value. -/
inductive ReqBody where
  | invalidJson
  | json (v : JVal)

/-- The value `await req.json().catch(() => ({}))`. -/
def bodyVal : ReqBody → JVal
  | .invalidJson => .jobj []
  | .json v => v

/-- The `POST` handler of `src/app/api/prices/route.ts`. -/
def POST (body : ReqBody) (finnhubKey : Option String) (up : Upstream) :
    RouteResponse :=
  match parseSymbols (bodyVal body) with
  | .error _ => errorResponse
  | .ok symbols =>
      let cur := baseCurrencyOf (bodyVal body)
      match cryptoPhase symbols cur up with
      | .error _ => errorResponse
      | .ok out₁ =>
          { status := 200
            prices := equityPhase symbols finnhubKey up out₁
            error := false }

/-! ## The v2 client (`src/unnamed/part_000`)

`refreshPrices` computes the deduplicated upper-cased request set, then
either merges the server's live map over the fallback table (live mode)
or takes the fallback table directly (demo mode / fetch failure). -/

/-- The holdings row as it exists at runtime.  The `type` field is a
string: the TS `AssetType` annotation is erased and `importCSV` casts an
arbitrary CSV field into it without a runtime check. -/
structure Holding where
  id : String
  symbol : String
  type : String
  quantity : ℚ
  costBasisPerUnit : ℚ
deriving DecidableEq, Repr

/-- `[...new Set(l)]`: deduplication keeping first occurrences. -/
def jsDedupAux : List String → List String → List String
  | _, [] => []
  | seen, x :: xs =>
      if x ∈ seen then jsDedupAux seen xs
      else x :: jsDedupAux (x :: seen) xs

/-- `[...new Set(l)]`. -/
def jsDedup (l : List String) : List String := jsDedupAux [] l

/-- The requested symbol set of `refreshPrices`:
`[...new Set(holdings.map(h => (h.symbol || "").toUpperCase()).filter(Boolean))]`. -/
def requestSymbols (holdings : List Holding) : List String :=
  jsDedup ((holdings.map (fun h => jsUpper h.symbol)).filter (fun s => s != ""))

/-- `const live = j?.prices || {}`. -/
def livePricesOf (resp : JVal) : JVal :=
  match jget resp "prices" with
  | some v => if jsTruthy v then v else .jobj []
  | none => .jobj []

/-- One merged entry:
`typeof live[s] === "number" ? live[s] : (DEMO_PRICES[s] ?? 0)`. -/
def reconciledEntry (live : JVal) (s : String) : JNum :=
  match jget live s with
  | some (.jnum n) => n
  | _ =>
      match DEMO_PRICES s with
      | some d => .fin d
      | none => .fin 0

/-- The reconciled price map of the live path of `refreshPrices`
(lines building `merged`). -/
def mergeLive (symbols : List String) (resp : JVal) : List (String × JNum) :=
  symbols.foldl (fun m s => setKV m s (reconciledEntry (livePricesOf resp) s)) []

/-- One demo entry: `DEMO_PRICES[s] ?? 0`. -/
def demoEntry (s : String) : ℚ := (DEMO_PRICES s).getD 0

/-- The price map of the demo path (`setDemo`). -/
def demoMap (symbols : List String) : List (String × JNum) :=
  symbols.foldl (fun m s => setKV m s (.fin (demoEntry s))) []

/-! ## The valuation calculator (`totals` of both pages) -/

/-- The summary aggregates. -/
structure ValuationTotals where
  current : ℚ
  cost : ℚ
  pnl : ℚ
  pnlPct : ℚ
deriving DecidableEq, Repr

/-- v2 effective price of an (upper-cased) symbol:
`prices[sym] ?? DEMO_PRICES[sym] ?? 0`. -/
def effectivePrice (prices : String → Option ℚ) (sym : String) : ℚ :=
  (prices sym).getD ((DEMO_PRICES sym).getD 0)

/-- v1 effective price: `prices[sym] ?? DEMO[sym] ?? 0`. -/
def effectivePriceV1 (prices : String → Option ℚ) (sym : String) : ℚ :=
  (prices sym).getD ((DEMO sym).getD 0)

/-- The `totals` memo of the v2 page: one pass accumulating
`current += px * h.quantity` and `cost += h.costBasisPerUnit * h.quantity`,
then `pnl` and `pnlPct = cost > 0 ? (pnl / cost) * 100 : 0`. -/
def totals (holdings : List Holding) (prices : String → Option ℚ) :
    ValuationTotals :=
  let cc := holdings.foldl
    (fun (acc : ℚ × ℚ) h =>
      let sym := jsUpper h.symbol
      (acc.1 + effectivePrice prices sym * h.quantity,
       acc.2 + h.costBasisPerUnit * h.quantity))
    (0, 0)
  let pnl := cc.1 - cc.2
  { current := cc.1, cost := cc.2, pnl := pnl
    pnlPct := if 0 < cc.2 then pnl / cc.2 * 100 else 0 }

/-- The v1 holdings row (the extra optional metadata fields are runtime
strings; `currency` is required by the TS type). -/
structure HoldingV1 where
  id : String
  symbol : String
  name : String
  type : String
  exchange : String
  currency : String
  quantity : ℚ
  costBasisPerUnit : ℚ
deriving DecidableEq, Repr

/-- The `totals` memo of the v1 page (same formulas over the `DEMO`
table). -/
def totalsV1 (holdings : List HoldingV1) (prices : String → Option ℚ) :
    ValuationTotals :=
  let cc := holdings.foldl
    (fun (acc : ℚ × ℚ) h =>
      (acc.1 + effectivePriceV1 prices (jsUpper h.symbol) * h.quantity,
       acc.2 + h.costBasisPerUnit * h.quantity))
    (0, 0)
  let pnl := cc.1 - cc.2
  { current := cc.1, cost := cc.2, pnl := pnl
    pnlPct := if 0 < cc.2 then pnl / cc.2 * 100 else 0 }

/-! ## CSV interchange (`exportCSV` / `importCSV`)

CSV text is manipulated at the character-list level.  `splitCh` is JS
`String.prototype.split` with a single-character separator:
`"".split(c) = [""]`, separators at the ends produce empty pieces. -/

/-- JS `s.split(c)` for a one-character separator. -/
def splitCh (c : Char) : List Char → List (List Char)
  | [] => [[]]
  | a :: as =>
      if a = c then [] :: splitCh c as
      else
        match splitCh c as with
        | [] => [[a]]
        | g :: gs => (a :: g) :: gs

/-- Strip the `\r` of a `\r\n` separator: the piece before a `\n` loses
one trailing `\r`, as the regex `/\r?\n/` consumes it. -/
def stripCR (l : List Char) : List Char :=
  if l.getLast? = some '\r' then l.dropLast else l

/-- Apply `stripCR` to every piece except the last (which is not followed
by a `\n`). -/
def stripCRs : List (List Char) → List (List Char)
  | [] => []
  | [x] => [x]
  | x :: xs => stripCR x :: stripCRs xs

/-- `text.split(/\r?\n/).filter(Boolean)`. -/
def csvLines (text : String) : List (List Char) :=
  (stripCRs (splitCh '\n' text.data)).filter (fun l => l != [])

/-- Digit-sequence value accumulator for `Number()`. -/
def parseDigitsAux : List Char → Nat → Option Nat
  | [], acc => some acc
  | c :: rest, acc =>
      if c.isDigit then parseDigitsAux rest (acc * 10 + (c.toNat - 48))
      else none

/-- Decimal literal body: digits with at most one point. -/
def parseNumCore (l : List Char) : Option ℚ :=
  match splitCh '.' l with
  | [ip] =>
      if ip = [] then none else (parseDigitsAux ip 0).map (fun n => (n : ℚ))
  | [ip, fp] =>
      if ip = [] && fp = [] then none
      else
        match parseDigitsAux ip 0, parseDigitsAux fp 0 with
        | some a, some b => some ((a : ℚ) + (b : ℚ) / ((10 : ℚ) ^ fp.length))
        | _, _ => none
  | _ => none

/-- JS `Number(s)` on a string: surrounding whitespace ignored, empty
string is `0`, optional sign, decimal literal.  A string JS would parse
to `NaN` (and the hex / exponent / Infinity literal forms) is outside the
rational model and yields `0` here; every theorem whose truth depends on
a numeric parse carries an explicit round-trip hypothesis, so this corner
never decides a claim. -/
def parseNum (s : String) : ℚ :=
  let l := trimChars s.data
  if l = [] then 0
  else
    match l with
    | '-' :: r => match parseNumCore r with | some q => -q | none => 0
    | '+' :: r => (parseNumCore r).getD 0
    | _ => (parseNumCore l).getD 0

/-- JS `Array.prototype.join(sep)` for a one-character separator. -/
def joinCh (sep : Char) : List (List Char) → List Char
  | [] => []
  | [x] => x
  | x :: xs => x ++ sep :: joinCh sep xs

/-- The v2 CSV header line. -/
def csvHeader : List Char := "symbol,type,quantity,costBasisPerUnit".data

/-- One exported v2 row:
`[h.symbol, h.type, h.quantity, h.costBasisPerUnit].join(",")` (the join
stringifies the numbers). -/
def rowOf (h : Holding) : List Char :=
  joinCh ',' [h.symbol.data, h.type.data,
    (ratToString h.quantity).data, (ratToString h.costBasisPerUnit).data]

/-- `exportCSV` of the v2 page: `header + "\n" + rows.join("\n")`. -/
def exportCSV (holdings : List Holding) : String :=
  String.mk (csvHeader ++ '\n' :: joinCh '\n' (holdings.map rowOf))

/-- The required lower-cased column names of the v2 import. -/
def requiredCols : List (List Char) :=
  ["symbol".data, "type".data, "quantity".data, "costbasisperunit".data]

/-- `header.split(",").map(s => s.trim().toLowerCase())`. -/
def colNames (header : List Char) : List (List Char) :=
  (splitCh ',' header).map (fun s => (trimChars s).map Char.toLower)

/-- `Object.fromEntries(cols.map((c, i) => [c, i]))` read at a key: the
last occurrence of a duplicated column name wins. -/
def lastIdxOfAux : List (List Char) → List Char → Nat → Option Nat
  | [], _, _ => none
  | c :: cs, k, i =>
      match lastIdxOfAux cs k (i + 1) with
      | some j => some j
      | none => if c = k then some i else none

/-- Index of a column name, last occurrence winning. -/
def lastIdxOf (cols : List (List Char)) (k : List Char) : Option Nat :=
  lastIdxOfAux cols k 0

/-- `c[idx[k]]` as observed through the `||` defaults: a missing index
(`idx[k]` undefined), an out-of-range cell and an empty cell are all
falsy, so they are uniformly modelled by `[]`. -/
def cellAt (c : List (List Char)) : Option Nat → List Char
  | some i => c.getD i []
  | none => []

/-- One parsed v2 row.  `uid()` draws a random identifier; the spec
exempts identifiers from the round trip, so it is modelled as `""`. -/
def importRow (cols : List (List Char)) (r : List Char) : Holding :=
  let c := splitCh ',' r
  let sym := cellAt c (lastIdxOf cols "symbol".data)
  let ty := cellAt c (lastIdxOf cols "type".data)
  let qty := cellAt c (lastIdxOf cols "quantity".data)
  let cb := cellAt c (lastIdxOf cols "costbasisperunit".data)
  { id := ""
    symbol := String.mk (trimChars sym)
    type := String.mk (trimChars (if ty = [] then "Stock".data else ty))
    quantity := if qty = [] then 0 else parseNum (String.mk qty)
    costBasisPerUnit := if cb = [] then 0 else parseNum (String.mk cb) }

/-- `importCSV` of the v2 page acting on the stored holdings list: a
missing required column is rejected before `setHoldings` runs (the prior
list is returned unchanged); on success the parsed rows replace it.  An
input with no non-empty line makes the JS handler throw on destructuring
`[header, ...rows]`, which also leaves the stored holdings untouched. -/
def importCSV (text : String) (prev : List Holding) : List Holding :=
  match csvLines text with
  | [] => prev
  | header :: rows =>
      let cols := colNames header
      if requiredCols.all (fun k => cols.contains k) then
        rows.map (importRow cols)
      else prev

/-- One parsed v1 row (`src/app/page.tsx`): fields are
`c[idx[k]]?.trim() || default`, numbers `Number(c[idx[k]] || 0)`;
`currency` defaults to the base currency of the settings. -/
def importRowV1 (cols : List (List Char)) (baseCurrency : String)
    (r : List Char) : HoldingV1 :=
  let c := splitCh ',' r
  let strField := fun (k : List Char) (dflt : String) =>
    let t := trimChars (cellAt c (lastIdxOf cols k))
    if t = [] then dflt else String.mk t
  let numField := fun (k : List Char) =>
    let v := cellAt c (lastIdxOf cols k)
    if v = [] then (0 : ℚ) else parseNum (String.mk v)
  { id := ""
    symbol := strField "symbol".data ""
    name := strField "name".data ""
    type := strField "type".data "Stock"
    exchange := strField "exchange".data ""
    currency := strField "currency".data baseCurrency
    quantity := numField "quantity".data
    costBasisPerUnit := numField "costbasisperunit".data }

/-- `importCSV` of the v1 page: it builds the column index and maps the
rows with NO required-column validation, then unconditionally replaces
the stored holdings. -/
def importCSVV1 (text : String) (baseCurrency : String)
    (prev : List HoldingV1) : List HoldingV1 :=
  match csvLines text with
  | [] => prev
  | header :: rows =>
      let cols := colNames header
      rows.map (importRowV1 cols baseCurrency)

/-! ## Fold lemmas for the price-map loops -/

theorem lookupKV_foldl_quoteStep (f : String → Option JNum)
    (syms : List String) (out : List (String × JNum)) (s : String) :
    lookupKV (syms.foldl (quoteStep f) out) s =
      match f s with
      | some n => if s ∈ syms then some n else lookupKV out s
      | none => lookupKV out s := by
  induction syms generalizing out with
  | nil =>
      cases h : f s <;> simp [List.foldl]
  | cons x xs ih =>
      rw [List.foldl_cons, ih]
      cases h : f s with
      | none =>
          by_cases hx : x = s
          · subst hx
            simp [quoteStep, h]
          · cases h₂ : f x <;>
              simp [quoteStep, h₂, lookupKV_setKV, hx]
      | some n =>
          by_cases hmem : s ∈ xs
          · simp [hmem]
          · by_cases hx : x = s
            · subst hx
              simp [quoteStep, h, lookupKV_setKV, hmem]
            · have hsx : ¬ s = x := fun hh => hx hh.symm
              cases h₂ : f x <;>
                simp [quoteStep, h₂, lookupKV_setKV, hx, hmem, hsx]

theorem mem_keysOf_setKV {m : List (String × JNum)} {k₀ k : String}
    {v : JNum} : k ∈ keysOf (setKV m k₀ v) ↔ k ∈ keysOf m ∨ k = k₀ := by
  rw [keysOf_setKV]
  by_cases h : k₀ ∈ keysOf m
  · simp [h]
    rintro rfl
    exact h
  · simp [h, or_comm]

theorem mem_keysOf_foldl_quoteStep (f : String → Option JNum)
    (syms : List String) (out : List (String × JNum)) (k : String) :
    k ∈ keysOf (syms.foldl (quoteStep f) out) ↔
      k ∈ keysOf out ∨ (k ∈ syms ∧ (f k).isSome) := by
  induction syms generalizing out with
  | nil => simp
  | cons x xs ih =>
      rw [List.foldl_cons, ih]
      by_cases hx : k = x
      · subst hx
        cases h : f k <;>
          simp [quoteStep, h, mem_keysOf_setKV]
      · cases h : f x <;>
          simp [quoteStep, h, mem_keysOf_setKV, hx]

theorem values_foldl_quoteStep (f : String → Option JNum) (P : JNum → Prop)
    (syms : List String) (out : List (String × JNum))
    (hout : ∀ kv ∈ out, P kv.2) (hf : ∀ s n, f s = some n → P n) :
    ∀ kv ∈ syms.foldl (quoteStep f) out, P kv.2 := by
  induction syms generalizing out with
  | nil => simpa using hout
  | cons x xs ih =>
      rw [List.foldl_cons]
      refine ih _ ?_
      intro kv hkv
      cases h : f x with
      | none =>
          exact hout kv (by simpa [quoteStep, h] using hkv)
      | some n =>
          rcases mem_setKV (by simpa [quoteStep, h] using hkv) with h₂ | h₂
          · rw [h₂]; exact hf x n h
          · exact hout kv h₂

theorem keysOf_foldl_quoteStep_total (f : String → Option JNum)
    (syms : List String) (out : List (String × JNum))
    (hnd : syms.Nodup) (hdisj : ∀ s ∈ syms, s ∉ keysOf out)
    (hf : ∀ s ∈ syms, (f s).isSome) :
    keysOf (syms.foldl (quoteStep f) out) = keysOf out ++ syms := by
  induction syms generalizing out with
  | nil => simp
  | cons x xs ih =>
      rw [List.foldl_cons]
      rcases Option.isSome_iff_exists.mp (hf x (List.mem_cons_self x xs))
        with ⟨n, hn⟩
      have hx : x ∉ keysOf out := hdisj x (List.mem_cons_self x xs)
      have hkeys : keysOf (quoteStep f out x) = keysOf out ++ [x] := by
        simp [quoteStep, hn, keysOf_setKV, hx]
      have hnd₂ := (List.nodup_cons.mp hnd).2
      have hxnotin := (List.nodup_cons.mp hnd).1
      have hdisj₂ : ∀ s ∈ xs, s ∉ keysOf (quoteStep f out x) := by
        intro s hs
        rw [hkeys]
        simp only [List.mem_append, List.mem_singleton]
        rintro (h₂ | rfl)
        · exact hdisj s (List.mem_cons_of_mem _ hs) h₂
        · exact hxnotin hs
      rw [ih (quoteStep f out x) hnd₂ hdisj₂
        (fun s hs => hf s (List.mem_cons_of_mem _ hs)), hkeys]
      simp

/-! ## Characterizations of the route's phases -/

theorem lookupKV_eq_none_iff (m : List (String × JNum)) (k : String) :
    lookupKV m k = none ↔ k ∉ keysOf m := by
  induction m with
  | nil => simp [lookupKV, keysOf]
  | cons hd tl ih =>
      obtain ⟨k₁, v₁⟩ := hd
      by_cases h : k₁ = k
      · subst h
        simp [lookupKV, keysOf]
      · have h₂ : ¬ k = k₁ := fun hh => h hh.symm
        simp only [lookupKV, if_neg h, ih, keysOf, List.map_cons,
          List.mem_cons]
        simp [h₂]

theorem mem_foldl_quoteStep {f : String → Option JNum} {syms : List String}
    {out : List (String × JNum)} {kv : String × JNum}
    (hkv : kv ∈ syms.foldl (quoteStep f) out) :
    kv ∈ out ∨ (kv.1 ∈ syms ∧ f kv.1 = some kv.2) := by
  induction syms generalizing out with
  | nil => exact Or.inl (by simpa using hkv)
  | cons x xs ih =>
      rw [List.foldl_cons] at hkv
      rcases ih hkv with h | h
      · cases hfx : f x with
        | none =>
            rw [quoteStep, hfx] at h
            exact Or.inl h
        | some n =>
            rw [quoteStep, hfx] at h
            rcases mem_setKV h with h₂ | h₂
            · subst h₂
              exact Or.inr ⟨List.mem_cons_self _ _, hfx⟩
            · exact Or.inl h₂
      · exact Or.inr ⟨List.mem_cons_of_mem _ h.1, h.2⟩

theorem cryptoQuote_pos {j : JVal} {cur s : String} {n : JNum}
    (h : cryptoQuote j cur s = some n) : jsGtZero n = true := by
  unfold cryptoQuote at h
  repeat' split at h
  all_goals cases h <;> assumption

theorem equityQuote_pos {up : Upstream} {sym : String} {n : JNum}
    (h : equityQuote up sym = some n) : jsGtZero n = true := by
  unfold equityQuote at h
  repeat' split at h
  all_goals cases h <;> assumption

theorem CG_ID_ne_empty (s v : String) (h : CG_ID s = some v) : v ≠ "" := by
  unfold CG_ID at h
  split at h <;> cases h <;> decide

theorem isCryptoSym_eq_isSome (s : String) :
    isCryptoSym s = (CG_ID s).isSome := by
  cases h : CG_ID s with
  | none => simp [isCryptoSym, jsTruthyOptStr, h]
  | some v => simp [isCryptoSym, jsTruthyOptStr, h, CG_ID_ne_empty s v h]

theorem cryptoPhase_ok_mem {symbols : List String} {cur : String}
    {up : Upstream} {out₁ : List (String × JNum)}
    (hcr : cryptoPhase symbols cur up = Except.ok out₁)
    {kv : String × JNum} (hkv : kv ∈ out₁) :
    kv.1 ∈ cryptoBucket symbols ∧
      ∃ j, up.crypto = FetchOutcome.ok j ∧ cryptoQuote j cur kv.1 = some kv.2 := by
  simp only [cryptoPhase] at hcr
  by_cases hempty : (cryptoBucket symbols).isEmpty = true
  · rw [if_pos hempty] at hcr
    cases hcr
    simp at hkv
  · rw [if_neg hempty] at hcr
    cases hup : up.crypto with
    | throws => rw [hup] at hcr; cases hcr
    | notOk =>
        rw [hup] at hcr
        cases hcr
        simp at hkv
    | ok j =>
        rw [hup] at hcr
        cases hcr
        rcases mem_foldl_quoteStep (by simpa [cryptoStep] using hkv) with h | h
        · simp at h
        · exact ⟨h.1, j, rfl, h.2⟩

theorem cryptoPhase_ok_equity_none {symbols : List String} {cur : String}
    {up : Upstream} {out₁ : List (String × JNum)}
    (hcr : cryptoPhase symbols cur up = Except.ok out₁)
    {s : String} (hs : isCryptoSym s = false) : lookupKV out₁ s = none := by
  rw [lookupKV_eq_none_iff]
  intro hmem
  rcases List.mem_map.mp hmem with ⟨kv, hkv, rfl⟩
  have h := (cryptoPhase_ok_mem hcr hkv).1
  rw [cryptoBucket, List.mem_filter] at h
  rw [h.2] at hs
  cases hs

theorem equityPhase_skip (symbols : List String) (key : Option String)
    (up : Upstream) (out : List (String × JNum))
    (hkey : jsKeyPresent key = false) :
    equityPhase symbols key up out = out := by
  simp [equityPhase, hkey]

theorem equityPhase_mem {symbols : List String} {key : Option String}
    {up : Upstream} {out : List (String × JNum)} {kv : String × JNum}
    (hkv : kv ∈ equityPhase symbols key up out) :
    kv ∈ out ∨ (kv.1 ∈ equityBucket symbols ∧ equityQuote up kv.1 = some kv.2) := by
  simp only [equityPhase] at hkv
  by_cases hcond : (jsKeyPresent key && !(equityBucket symbols).isEmpty) = true
  · rw [if_pos hcond] at hkv
    exact mem_foldl_quoteStep (by simpa [equityStep] using hkv)
  · rw [if_neg hcond] at hkv
    exact Or.inl hkv

theorem lookupKV_equityPhase {symbols : List String} {key : Option String}
    (up : Upstream) (out : List (String × JNum)) {s : String}
    (hkey : jsKeyPresent key = true) (hs : s ∈ equityBucket symbols) :
    lookupKV (equityPhase symbols key up out) s =
      match equityQuote up s with
      | some n => some n
      | none => lookupKV out s := by
  have hne : (equityBucket symbols).isEmpty = false := by
    cases h : equityBucket symbols with
    | nil => rw [h] at hs; simp at hs
    | cons a l => simp [List.isEmpty]
  simp only [equityPhase]
  rw [if_pos (by simp [hkey, hne])]
  rw [show equityStep up = quoteStep (equityQuote up) from rfl,
    lookupKV_foldl_quoteStep]
  cases h : equityQuote up s <;> simp [hs]

/-! ## Characterizations of the client-side merge -/

theorem mergeLive_eq (S : List String) (resp : JVal) :
    mergeLive S resp =
      S.foldl (quoteStep (fun s => some (reconciledEntry (livePricesOf resp) s))) [] :=
  rfl

theorem demoMap_eq (S : List String) :
    demoMap S = S.foldl (quoteStep (fun s => some (JNum.fin (demoEntry s)))) [] :=
  rfl

theorem keysOf_mergeLive (S : List String) (resp : JVal) (h : S.Nodup) :
    keysOf (mergeLive S resp) = S := by
  rw [mergeLive_eq,
    keysOf_foldl_quoteStep_total _ _ _ h (by simp [keysOf]) (by simp)]
  simp [keysOf]

theorem lookupKV_mergeLive (S : List String) (resp : JVal) (s : String)
    (h : s ∈ S) :
    lookupKV (mergeLive S resp) s =
      some (reconciledEntry (livePricesOf resp) s) := by
  rw [mergeLive_eq, lookupKV_foldl_quoteStep]
  simp [h]

theorem keysOf_demoMap (S : List String) (h : S.Nodup) :
    keysOf (demoMap S) = S := by
  rw [demoMap_eq,
    keysOf_foldl_quoteStep_total _ _ _ h (by simp [keysOf]) (by simp)]
  simp [keysOf]

theorem lookupKV_demoMap (S : List String) (s : String) (h : s ∈ S) :
    lookupKV (demoMap S) s = some (JNum.fin (demoEntry s)) := by
  rw [demoMap_eq, lookupKV_foldl_quoteStep]
  simp [h]

theorem jsDedupAux_nodup (l seen : List String) :
    (jsDedupAux seen l).Nodup ∧ ∀ x ∈ jsDedupAux seen l, x ∉ seen := by
  induction l generalizing seen with
  | nil => simp [jsDedupAux]
  | cons x xs ih =>
      by_cases hx : x ∈ seen
      · simp only [jsDedupAux, if_pos hx]
        exact ih seen
      · simp only [jsDedupAux, if_neg hx]
        have h₂ := ih (x :: seen)
        refine ⟨List.nodup_cons.mpr ⟨?_, h₂.1⟩, ?_⟩
        · intro hmem
          exact (h₂.2 x hmem) (List.mem_cons_self _ _)
        · intro y hy
          rcases List.mem_cons.mp hy with rfl | hy₂
          · exact hx
          · intro hsy
            exact (h₂.2 y hy₂) (List.mem_cons_of_mem _ hsy)

theorem jsDedup_nodup (l : List String) : (jsDedup l).Nodup :=
  (jsDedupAux_nodup l []).1

theorem POST_ok {body : ReqBody} (key : Option String) {up : Upstream}
    {symbols : List String} {out₁ : List (String × JNum)}
    (hsym : parseSymbols (bodyVal body) = Except.ok symbols)
    (hcr : cryptoPhase symbols (baseCurrencyOf (bodyVal body)) up = Except.ok out₁) :
    POST body key up =
      { status := 200, prices := equityPhase symbols key up out₁,
        error := false } := by
  simp [POST, hsym, hcr]

theorem POST_parse_err {body : ReqBody} {key : Option String} {up : Upstream}
    (hsym : parseSymbols (bodyVal body) = Except.error ()) :
    POST body key up = errorResponse := by
  simp [POST, hsym]

theorem POST_crypto_err {body : ReqBody} {key : Option String} {up : Upstream}
    {symbols : List String}
    (hsym : parseSymbols (bodyVal body) = Except.ok symbols)
    (hcr : cryptoPhase symbols (baseCurrencyOf (bodyVal body)) up =
      Except.error ()) :
    POST body key up = errorResponse := by
  simp [POST, hsym, hcr]

/-! ## Concrete scenario inputs used by witnesses and counterexamples -/

/-- Upstream world of the spec's scenarios C and D: CoinGecko serves
bitcoin at 62000 CAD; Finnhub answers only for `MSFT` (price 410), every
other per-symbol request fails. -/
def upScenario : Upstream :=
  { crypto := .ok (.jobj [("bitcoin", .jobj [("cad", .jnum (.fin 62000))])])
    equity := fun t => if t = "MSFT" then .ok (.jobj [("c", .jnum (.fin 410))])
      else .fails }

/-- Scenario C request body: `{symbols: ["AAPL", "BTC"], baseCurrency: "CAD"}`. -/
def bodyScenarioC : ReqBody :=
  .json (.jobj [("symbols", .jarr [.jstr "AAPL", .jstr "BTC"]),
    ("baseCurrency", .jstr "CAD")])

/-- Scenario D request body: `{symbols: ["AAPL", "MSFT"], baseCurrency: "CAD"}`. -/
def bodyScenarioD : ReqBody :=
  .json (.jobj [("symbols", .jarr [.jstr "AAPL", .jstr "MSFT"]),
    ("baseCurrency", .jstr "CAD")])

/-- An upstream world in which CoinGecko reports a positive-infinite
bitcoin price (`JSON.parse` of the JSON literal `1e999` overflows to
`Infinity`). -/
def upInfinity : Upstream :=
  { crypto := .ok (.jobj [("bitcoin", .jobj [("cad", .jnum .inf)])])
    equity := fun _ => .fails }

/-- Request body `{symbols: ["BTC"], baseCurrency: "CAD"}`. -/
def bodyBTC : ReqBody :=
  .json (.jobj [("symbols", .jarr [.jstr "BTC"]), ("baseCurrency", .jstr "CAD")])

/-- A structurally malformed body: `symbols` is a number, so
`symbols.map(...)` throws. -/
def bodyBadSymbols : ReqBody := .json (.jobj [("symbols", .jnum (.fin 5))])

/-! ## Claim theorems: the resolution engine -/

/-- C9: the symbol classifier is a pure partition of the requested symbol
set: a symbol goes to the crypto bucket iff it is requested and present
in the crypto-id table, to the equity bucket iff requested and absent
from the table (equity by default — nothing is rejected), the buckets are
disjoint and jointly cover the request set. -/
theorem classifier_partition (symbols : List String) (s : String) :
    (s ∈ cryptoBucket symbols ↔ s ∈ symbols ∧ (CG_ID s).isSome = true) ∧
    (s ∈ equityBucket symbols ↔ s ∈ symbols ∧ (CG_ID s).isSome = false) ∧
    ¬ (s ∈ cryptoBucket symbols ∧ s ∈ equityBucket symbols) ∧
    (s ∈ symbols ↔ s ∈ cryptoBucket symbols ∨ s ∈ equityBucket symbols) := by
  have hiso := isCryptoSym_eq_isSome s
  refine ⟨?_, ?_, ?_, ?_⟩
  · rw [cryptoBucket, List.mem_filter, hiso]
  · rw [equityBucket, List.mem_filter]
    simp [hiso]
  · rintro ⟨h₁, h₂⟩
    rw [cryptoBucket, List.mem_filter] at h₁
    rw [equityBucket, List.mem_filter] at h₂
    rw [h₁.2] at h₂
    simp at h₂
  · constructor
    · intro h
      by_cases hc : isCryptoSym s = true
      · exact Or.inl (List.mem_filter.mpr ⟨h, hc⟩)
      · refine Or.inr (List.mem_filter.mpr ⟨h, ?_⟩)
        simp [Bool.not_eq_true] at hc
        simp [hc]
    · rintro (h | h)
      · exact (List.mem_filter.mp h).1
      · exact (List.mem_filter.mp h).1

/-- C5: when the equity credential is absent (or empty, hence falsy), the
whole equity block is skipped: the response is the crypto phase's output
alone with a success status, and every equity-classified symbol is absent
from it.  Crypto resolution is unaffected: the crypto phase does not
depend on the credential at all. -/
theorem equity_credential_absent (body : ReqBody) (key : Option String)
    (up : Upstream) (symbols : List String) (out₁ : List (String × JNum))
    (hkey : jsKeyPresent key = false)
    (hsym : parseSymbols (bodyVal body) = Except.ok symbols)
    (hcr : cryptoPhase symbols (baseCurrencyOf (bodyVal body)) up =
      Except.ok out₁) :
    POST body key up = { status := 200, prices := out₁, error := false } ∧
    (∀ s, isCryptoSym s = false → lookupKV out₁ s = none) := by
  constructor
  · rw [POST_ok key hsym hcr, equityPhase_skip _ _ _ _ hkey]
  · intro s hs
    exact cryptoPhase_ok_equity_none hcr hs

/-- C5 witness (the spec's Scenario C): credential absent, request
`[AAPL, BTC]`: the response is a 200 carrying exactly the crypto-resolved
`BTC` entry, and `AAPL` is absent. -/
theorem equity_credential_absent_scenario :
    POST bodyScenarioC none upScenario =
      { status := 200, prices := [("BTC", JNum.fin 62000)], error := false } ∧
    lookupKV [("BTC", JNum.fin 62000)] "AAPL" = none := by
  have h := equity_credential_absent bodyScenarioC none upScenario
    ["AAPL", "BTC"] [("BTC", JNum.fin 62000)] rfl rfl rfl
  exact ⟨h.1, h.2 "AAPL" rfl⟩

/-- C4: per-symbol equity independence.  Whenever the call succeeds (the
symbols parse, and the crypto phase did not throw), an equity symbol
whose own quote chain fails — transport error, non-success status,
missing or invalid `c` field, all collapsed into `equityQuote = none` —
is simply absent from the output, while an equity symbol whose quote
chain succeeds contributes exactly its price; the status is 200 in both
cases, whatever the outcomes of the sibling requests. -/
theorem equity_partial_failure (body : ReqBody) (key : Option String)
    (up : Upstream) (symbols : List String) (out₁ : List (String × JNum))
    (hsym : parseSymbols (bodyVal body) = Except.ok symbols)
    (hcr : cryptoPhase symbols (baseCurrencyOf (bodyVal body)) up =
      Except.ok out₁)
    (hkey : jsKeyPresent key = true) :
    (POST body key up).status = 200 ∧
    (∀ s ∈ symbols, isCryptoSym s = false → equityQuote up s = none →
      lookupKV (POST body key up).prices s = none) ∧
    (∀ s ∈ symbols, isCryptoSym s = false → ∀ n, equityQuote up s = some n →
      lookupKV (POST body key up).prices s = some n) := by
  have hpost := POST_ok key hsym hcr
  refine ⟨by rw [hpost], ?_, ?_⟩
  · intro s hs hcf hq
    have hbucket : s ∈ equityBucket symbols :=
      List.mem_filter.mpr ⟨hs, by simp [hcf]⟩
    rw [hpost]
    show lookupKV (equityPhase symbols key up out₁) s = none
    rw [lookupKV_equityPhase up out₁ hkey hbucket, hq]
    exact cryptoPhase_ok_equity_none hcr hcf
  · intro s hs hcf n hq
    have hbucket : s ∈ equityBucket symbols :=
      List.mem_filter.mpr ⟨hs, by simp [hcf]⟩
    rw [hpost]
    show lookupKV (equityPhase symbols key up out₁) s = some n
    rw [lookupKV_equityPhase up out₁ hkey hbucket, hq]

/-- C4 witness (the spec's Scenario D): batch `[AAPL, MSFT]` with the
credential present, `AAPL`'s request failing and `MSFT`'s succeeding:
the call succeeds, `MSFT` carries its live price 410 and `AAPL` is
absent. -/
theorem equity_partial_failure_scenario :
    (POST bodyScenarioD (some "k") upScenario).status = 200 ∧
    lookupKV (POST bodyScenarioD (some "k") upScenario).prices "AAPL" = none ∧
    lookupKV (POST bodyScenarioD (some "k") upScenario).prices "MSFT" =
      some (JNum.fin 410) := by
  have h := equity_partial_failure bodyScenarioD (some "k") upScenario
    ["AAPL", "MSFT"] [] rfl rfl (by decide)
  exact ⟨h.1, h.2.1 "AAPL" (by decide) rfl rfl,
    h.2.2 "MSFT" (by decide) rfl (JNum.fin 410) rfl⟩

/-- C10 (implicit): on any request whose symbols parse, the key set of the
server's `prices` object is a subset of the parsed (upper-cased) symbols;
every entry carries a price actually delivered by a live upstream quote
(so an unresolved symbol is never present, with zero, a sentinel, or
anything else); completion to the full requested key set happens only in
the client-side merge, whose key set is exactly the request. -/
theorem server_prices_subset (body : ReqBody) (key : Option String)
    (up : Upstream) (symbols : List String)
    (hsym : parseSymbols (bodyVal body) = Except.ok symbols) :
    (∀ k ∈ keysOf (POST body key up).prices, k ∈ symbols) ∧
    (∀ kv ∈ (POST body key up).prices,
      (∃ j, up.crypto = FetchOutcome.ok j ∧
        cryptoQuote j (baseCurrencyOf (bodyVal body)) kv.1 = some kv.2) ∨
      equityQuote up kv.1 = some kv.2) ∧
    (∀ S resp, S.Nodup → keysOf (mergeLive S resp) = S) := by
  cases hcr : cryptoPhase symbols (baseCurrencyOf (bodyVal body)) up with
  | error e =>
      cases e
      rw [POST_crypto_err hsym hcr]
      refine ⟨?_, ?_, fun S resp h => keysOf_mergeLive S resp h⟩
      · intro k hk
        simp [errorResponse, keysOf] at hk
      · intro kv hkv
        simp [errorResponse] at hkv
  | ok out₁ =>
      rw [POST_ok key hsym hcr]
      refine ⟨?_, ?_, fun S resp h => keysOf_mergeLive S resp h⟩
      · intro k hk
        rcases List.mem_map.mp hk with ⟨kv, hkv, rfl⟩
        rcases equityPhase_mem hkv with h | h
        · exact (List.mem_filter.mp (cryptoPhase_ok_mem hcr h).1).1
        · exact (List.mem_filter.mp h.1).1
      · intro kv hkv
        rcases equityPhase_mem hkv with h | h
        · exact Or.inl (cryptoPhase_ok_mem hcr h).2
        · exact Or.inr h.2

/-- C10 witness: on Scenario C's request the server keys are contained in
`["AAPL", "BTC"]`, and the client merge over a nodup request set has
exactly that key set. -/
theorem server_prices_subset_scenario :
    (∀ k ∈ keysOf (POST bodyScenarioC none upScenario).prices,
      k ∈ ["AAPL", "BTC"]) ∧
    keysOf (mergeLive ["BTC", "DOL"] (.jobj [])) = ["BTC", "DOL"] := by
  have h := server_prices_subset bodyScenarioC none upScenario
    ["AAPL", "BTC"] rfl
  exact ⟨h.1, h.2.2 ["BTC", "DOL"] (.jobj []) (by decide)⟩

/-- C3 counterexample: the strict-positivity check `p > 0` does not test
finiteness, so a positive-infinite upstream value IS stored: with
CoinGecko reporting `Infinity` for bitcoin, the 200 response's price map
contains the non-finite entry `("BTC", Infinity)`. -/
theorem nonfinite_price_stored_cex :
    POST bodyBTC none upInfinity =
      { status := 200, prices := [("BTC", JNum.inf)], error := false } ∧
    (∀ q : ℚ, JNum.inf ≠ JNum.fin q) := by
  exact ⟨by decide, fun q h => JNum.noConfusion h⟩

/-- C3 amended: every value stored in a server price map passes the JS
comparison `value > 0` — zero, negative, `NaN` and `-Infinity` upstream
values (and non-numeric ones) are treated identically to absent and never
stored — but finiteness is not enforced (`+Infinity` passes, see the
counterexample). -/
theorem server_prices_jsPositive (body : ReqBody) (key : Option String)
    (up : Upstream) :
    ∀ kv ∈ (POST body key up).prices, jsGtZero kv.2 = true := by
  intro kv hkv
  cases hsym : parseSymbols (bodyVal body) with
  | error e =>
      cases e
      rw [POST_parse_err hsym] at hkv
      simp [errorResponse] at hkv
  | ok symbols =>
      cases hcr : cryptoPhase symbols (baseCurrencyOf (bodyVal body)) up with
      | error e =>
          cases e
          rw [POST_crypto_err hsym hcr] at hkv
          simp [errorResponse] at hkv
      | ok out₁ =>
          rw [POST_ok key hsym hcr] at hkv
          rcases equityPhase_mem hkv with h | h
          · rcases (cryptoPhase_ok_mem hcr h).2 with ⟨j, _, hq⟩
            exact cryptoQuote_pos hq
          · exact equityQuote_pos h.2

/-- C3 amended witness: the concrete `BTC` entry of Scenario C passes the
positivity check. -/
theorem server_prices_jsPositive_scenario :
    jsGtZero (JNum.fin 62000) = true :=
  server_prices_jsPositive bodyScenarioC none upScenario
    ("BTC", JNum.fin 62000) (by decide)

/-- C6 counterexample: a body that is not valid JSON is swallowed by
`req.json().catch(() => ({}))` and treated as an empty request: the
response is a 200 success with an empty price map and no error field —
NOT an error response as the claim states. -/
theorem malformed_json_success_cex :
    POST ReqBody.invalidJson none upScenario =
      { status := 200, prices := [], error := false } := by
  decide

/-- C6 amended: a malformed body never propagates an exception and always
yields a response carrying an empty price map, but only a structurally
invalid one is an error response: a body that is not valid JSON (or whose
symbol list is empty or absent) produces a 200 success with an empty
price map, while a body whose `symbols` value is not an array of strings
produces the 400 `bad-request` error response with an empty price map. -/
theorem malformed_body_handling :
    (∀ (key : Option String) (up : Upstream),
      POST ReqBody.invalidJson key up =
        { status := 200, prices := [], error := false }) ∧
    (∀ (body : ReqBody) (key : Option String) (up : Upstream),
      parseSymbols (bodyVal body) = Except.ok [] →
      POST body key up = { status := 200, prices := [], error := false }) ∧
    (∀ (body : ReqBody) (key : Option String) (up : Upstream),
      parseSymbols (bodyVal body) = Except.error () →
      POST body key up = errorResponse) := by
  refine ⟨?_, ?_, ?_⟩
  · intro key up
    have h₁ : parseSymbols (bodyVal ReqBody.invalidJson) = Except.ok [] := rfl
    have h₂ : cryptoPhase [] (baseCurrencyOf (bodyVal ReqBody.invalidJson)) up =
      Except.ok [] := rfl
    rw [POST_ok key h₁ h₂]
    simp [equityPhase, equityBucket]
  · intro body key up h
    have h₂ : cryptoPhase [] (baseCurrencyOf (bodyVal body)) up =
      Except.ok [] := rfl
    rw [POST_ok key h h₂]
    simp [equityPhase, equityBucket]
  · intro body key up h
    exact POST_parse_err h

/-- C6 amended witness: a non-array `symbols` value yields the 400 error
response. -/
theorem malformed_body_handling_scenario :
    POST bodyBadSymbols none upScenario = errorResponse :=
  malformed_body_handling.2.2 bodyBadSymbols none upScenario rfl

/-- C1: a resolution cycle reconciles into a price map whose key set is
exactly the (deduplicated, hence nodup) requested symbol set — nothing
dropped, nothing invented — and each entry follows the precedence
live-adapter number > fallback-table price > the explicit 0 sentinel; the
demo path likewise covers every requested symbol with fallback-or-0. -/
theorem reconciler_exact_keys :
    (∀ holdings, (requestSymbols holdings).Nodup) ∧
    (∀ S resp, S.Nodup →
      keysOf (mergeLive S resp) = S ∧
      ∀ s ∈ S, lookupKV (mergeLive S resp) s =
        some (reconciledEntry (livePricesOf resp) s)) ∧
    (∀ live s n, jget live s = some (.jnum n) → reconciledEntry live s = n) ∧
    (∀ live s, (∀ n, jget live s ≠ some (.jnum n)) →
      reconciledEntry live s = .fin ((DEMO_PRICES s).getD 0)) ∧
    (∀ S, S.Nodup →
      keysOf (demoMap S) = S ∧
      ∀ s ∈ S, lookupKV (demoMap S) s = some (.fin (demoEntry s))) := by
  refine ⟨fun holdings => jsDedup_nodup _, ?_, ?_, ?_, ?_⟩
  · intro S resp h
    exact ⟨keysOf_mergeLive S resp h, fun s hs => lookupKV_mergeLive S resp s hs⟩
  · intro live s n h
    simp [reconciledEntry, h]
  · intro live s hn
    cases h : jget live s with
    | none => cases hd : DEMO_PRICES s <;> simp [reconciledEntry, h, hd]
    | some v =>
        cases v with
        | jnum m => exact absurd h (hn m)
        | jnull => cases hd : DEMO_PRICES s <;> simp [reconciledEntry, h, hd]
        | jbool b => cases hd : DEMO_PRICES s <;> simp [reconciledEntry, h, hd]
        | jstr t => cases hd : DEMO_PRICES s <;> simp [reconciledEntry, h, hd]
        | jarr xs => cases hd : DEMO_PRICES s <;> simp [reconciledEntry, h, hd]
        | jobj fs => cases hd : DEMO_PRICES s <;> simp [reconciledEntry, h, hd]
  · intro S h
    exact ⟨keysOf_demoMap S h, fun s hs => lookupKV_demoMap S s hs⟩

/-- C1 witness: for the request set `["BTC", "ZZZ"]` with a live `BTC`
price, the merged map's keys are exactly the request; `BTC` takes the
live value and the unknown `ZZZ` the explicit 0 sentinel. -/
theorem reconciler_exact_keys_scenario :
    keysOf (mergeLive ["BTC", "ZZZ"]
      (.jobj [("prices", .jobj [("BTC", .jnum (.fin 62000))])])) =
      ["BTC", "ZZZ"] ∧
    lookupKV (mergeLive ["BTC", "ZZZ"]
      (.jobj [("prices", .jobj [("BTC", .jnum (.fin 62000))])])) "BTC" =
      some (JNum.fin 62000) ∧
    lookupKV (mergeLive ["BTC", "ZZZ"]
      (.jobj [("prices", .jobj [("BTC", .jnum (.fin 62000))])])) "ZZZ" =
      some (JNum.fin 0) := by
  have h := reconciler_exact_keys.2.1 ["BTC", "ZZZ"]
    (.jobj [("prices", .jobj [("BTC", .jnum (.fin 62000))])]) (by decide)
  refine ⟨h.1, ?_, ?_⟩
  · rw [h.2 "BTC" (by decide)]
    rfl
  · rw [h.2 "ZZZ" (by decide)]
    rfl

/-! ## Claim theorems: the valuation calculator -/

theorem totals_foldl (holdings : List Holding) (prices : String → Option ℚ)
    (a b : ℚ) :
    holdings.foldl (fun (acc : ℚ × ℚ) h =>
      let sym := jsUpper h.symbol
      (acc.1 + effectivePrice prices sym * h.quantity,
       acc.2 + h.costBasisPerUnit * h.quantity)) (a, b) =
      (a + (holdings.map
        (fun h => effectivePrice prices (jsUpper h.symbol) * h.quantity)).sum,
       b + (holdings.map (fun h => h.costBasisPerUnit * h.quantity)).sum) := by
  induction holdings generalizing a b with
  | nil => simp
  | cons x xs ih =>
      simp only [List.foldl_cons, List.map_cons, List.sum_cons, ih]
      refine Prod.ext ?_ ?_ <;> simp <;> ring

theorem totalsV1_foldl (holdings : List HoldingV1)
    (prices : String → Option ℚ) (a b : ℚ) :
    holdings.foldl (fun (acc : ℚ × ℚ) h =>
      (acc.1 + effectivePriceV1 prices (jsUpper h.symbol) * h.quantity,
       acc.2 + h.costBasisPerUnit * h.quantity)) (a, b) =
      (a + (holdings.map
        (fun h => effectivePriceV1 prices (jsUpper h.symbol) * h.quantity)).sum,
       b + (holdings.map (fun h => h.costBasisPerUnit * h.quantity)).sum) := by
  induction holdings generalizing a b with
  | nil => simp
  | cons x xs ih =>
      simp only [List.foldl_cons, List.map_cons, List.sum_cons, ih]
      refine Prod.ext ?_ ?_ <;> simp <;> ring

/-- C2: in both pages' `totals`, each holding's effective price follows
`resolved[symbol] ?? fallback[symbol] ?? 0`; `current` is the sum of
effective price times quantity, `cost` the sum of cost basis times
quantity, `pnl = current - cost`, and `pnlPct` is `pnl / cost * 100` when
`cost > 0` and exactly 0 when `cost = 0`, regardless of `current`
(division by zero is a defined policy, not an error). -/
theorem valuation_formulas :
    (∀ (holdings : List Holding) (prices : String → Option ℚ),
      (totals holdings prices).current =
        (holdings.map
          (fun h => effectivePrice prices (jsUpper h.symbol) * h.quantity)).sum ∧
      (totals holdings prices).cost =
        (holdings.map (fun h => h.costBasisPerUnit * h.quantity)).sum ∧
      (totals holdings prices).pnl =
        (totals holdings prices).current - (totals holdings prices).cost ∧
      (0 < (totals holdings prices).cost →
        (totals holdings prices).pnlPct =
          (totals holdings prices).pnl / (totals holdings prices).cost * 100) ∧
      ((totals holdings prices).cost = 0 →
        (totals holdings prices).pnlPct = 0)) ∧
    (∀ (holdings : List HoldingV1) (prices : String → Option ℚ),
      (totalsV1 holdings prices).current =
        (holdings.map
          (fun h => effectivePriceV1 prices (jsUpper h.symbol) * h.quantity)).sum ∧
      (totalsV1 holdings prices).cost =
        (holdings.map (fun h => h.costBasisPerUnit * h.quantity)).sum ∧
      (totalsV1 holdings prices).pnl =
        (totalsV1 holdings prices).current - (totalsV1 holdings prices).cost ∧
      (0 < (totalsV1 holdings prices).cost →
        (totalsV1 holdings prices).pnlPct =
          (totalsV1 holdings prices).pnl / (totalsV1 holdings prices).cost * 100) ∧
      ((totalsV1 holdings prices).cost = 0 →
        (totalsV1 holdings prices).pnlPct = 0)) ∧
    (∀ (prices : String → Option ℚ) (sym : String) (v : ℚ),
      prices sym = some v → effectivePrice prices sym = v) ∧
    (∀ (prices : String → Option ℚ) (sym : String) (d : ℚ),
      prices sym = none → DEMO_PRICES sym = some d →
      effectivePrice prices sym = d) ∧
    (∀ (prices : String → Option ℚ) (sym : String),
      prices sym = none → DEMO_PRICES sym = none →
      effectivePrice prices sym = 0) := by
  refine ⟨?_, ?_, ?_, ?_, ?_⟩
  · intro holdings prices
    refine ⟨?_, ?_, rfl, fun h => ?_, fun h => ?_⟩
    · simp only [totals, totals_foldl, zero_add]
    · simp only [totals, totals_foldl, zero_add]
    · show (if 0 < (totals holdings prices).cost
          then (totals holdings prices).pnl / (totals holdings prices).cost * 100
          else 0) =
        (totals holdings prices).pnl / (totals holdings prices).cost * 100
      rw [if_pos h]
    · show (if 0 < (totals holdings prices).cost
          then (totals holdings prices).pnl / (totals holdings prices).cost * 100
          else 0) = 0
      rw [if_neg (by rw [h]; exact lt_irrefl 0)]
  · intro holdings prices
    refine ⟨?_, ?_, rfl, fun h => ?_, fun h => ?_⟩
    · simp only [totalsV1, totalsV1_foldl, zero_add]
    · simp only [totalsV1, totalsV1_foldl, zero_add]
    · show (if 0 < (totalsV1 holdings prices).cost
          then (totalsV1 holdings prices).pnl / (totalsV1 holdings prices).cost * 100
          else 0) =
        (totalsV1 holdings prices).pnl / (totalsV1 holdings prices).cost * 100
      rw [if_pos h]
    · show (if 0 < (totalsV1 holdings prices).cost
          then (totalsV1 holdings prices).pnl / (totalsV1 holdings prices).cost * 100
          else 0) = 0
      rw [if_neg (by rw [h]; exact lt_irrefl 0)]
  · intro prices sym v h
    simp [effectivePrice, h]
  · intro prices sym d h hd
    simp [effectivePrice, h, hd]
  · intro prices sym h hd
    simp [effectivePrice, h, hd]

/-- Scenario A holdings: 2 BTC at cost basis 50000. -/
def holdingsScenarioA : List Holding :=
  [{ id := "1", symbol := "BTC", type := "Crypto", quantity := 2,
     costBasisPerUnit := 50000 }]

/-- Scenario A resolved prices: `{BTC: 62000}`. -/
def pricesScenarioA : String → Option ℚ :=
  fun s => if s = "BTC" then some 62000 else none

/-- C2 witness (the spec's Scenario A): 2 BTC at cost 50000 with live
price 62000 give `current = 124000`, `cost = 100000`, `pnl = 24000`,
`pnlPct = 24`. -/
theorem valuation_formulas_scenario :
    (totals holdingsScenarioA pricesScenarioA).current = 124000 ∧
    (totals holdingsScenarioA pricesScenarioA).cost = 100000 ∧
    (totals holdingsScenarioA pricesScenarioA).pnl = 24000 ∧
    (totals holdingsScenarioA pricesScenarioA).pnlPct = 24 := by
  have h := valuation_formulas.1 holdingsScenarioA pricesScenarioA
  have hcur : (totals holdingsScenarioA pricesScenarioA).current = 124000 := by
    rw [h.1]
    simp [holdingsScenarioA, pricesScenarioA, effectivePrice, jsUpper]
    norm_num
  have hcost : (totals holdingsScenarioA pricesScenarioA).cost = 100000 := by
    rw [h.2.1]
    simp [holdingsScenarioA]
    norm_num
  have hpnl : (totals holdingsScenarioA pricesScenarioA).pnl = 24000 := by
    rw [h.2.2.1, hcur, hcost]
    norm_num
  have hpct : (totals holdingsScenarioA pricesScenarioA).pnlPct = 24 := by
    rw [h.2.2.2.1 (by rw [hcost]; norm_num), hpnl, hcost]
    norm_num
  exact ⟨hcur, hcost, hpnl, hpct⟩

/-! ## Split / join lemmas for the CSV text -/

theorem splitCh_ne_nil (c : Char) (l : List Char) : splitCh c l ≠ [] := by
  induction l with
  | nil => simp [splitCh]
  | cons a as ih =>
      by_cases h : a = c
      · simp [splitCh, h]
      · simp only [splitCh, if_neg h]
        cases hs : splitCh c as with
        | nil => simp
        | cons g gs => simp

theorem splitCh_of_not_mem (c : Char) (l : List Char) (h : c ∉ l) :
    splitCh c l = [l] := by
  induction l with
  | nil => rfl
  | cons a as ih =>
      have ha : ¬ a = c := fun hh => h (hh ▸ List.mem_cons_self _ _)
      have h₂ : c ∉ as := fun hh => h (List.mem_cons_of_mem _ hh)
      simp only [splitCh, if_neg ha, ih h₂]

theorem splitCh_append (c : Char) (xs ys : List Char) (h : c ∉ xs) :
    splitCh c (xs ++ c :: ys) = xs :: splitCh c ys := by
  induction xs with
  | nil => simp [splitCh]
  | cons a as ih =>
      have ha : ¬ a = c := fun hh => h (hh ▸ List.mem_cons_self _ _)
      have h₂ : c ∉ as := fun hh => h (List.mem_cons_of_mem _ hh)
      simp [splitCh, ha, ih h₂]

theorem splitCh_joinCh (c : Char) (xss : List (List Char)) (hne : xss ≠ [])
    (h : ∀ xs ∈ xss, c ∉ xs) : splitCh c (joinCh c xss) = xss := by
  induction xss with
  | nil => exact absurd rfl hne
  | cons x xs ih =>
      cases xs with
      | nil =>
          show splitCh c (joinCh c [x]) = [x]
          exact splitCh_of_not_mem c x (h x (List.mem_cons_self _ _))
      | cons y ys =>
          show splitCh c (x ++ c :: joinCh c (y :: ys)) = x :: y :: ys
          rw [splitCh_append c x _ (h x (List.mem_cons_self _ _)),
            ih (List.cons_ne_nil _ _)
              (fun z hz => h z (List.mem_cons_of_mem _ hz))]

theorem mem_joinCh {c d : Char} {xss : List (List Char)}
    (h : d ∈ joinCh c xss) : d = c ∨ ∃ xs ∈ xss, d ∈ xs := by
  induction xss with
  | nil => simp [joinCh] at h
  | cons x xs ih =>
      cases xs with
      | nil =>
          exact Or.inr ⟨x, List.mem_cons_self _ _, h⟩
      | cons y ys =>
          rcases List.mem_append.mp h with h₂ | h₂
          · exact Or.inr ⟨x, List.mem_cons_self _ _, h₂⟩
          · rcases List.mem_cons.mp h₂ with rfl | h₃
            · exact Or.inl rfl
            · rcases ih h₃ with h₄ | ⟨xs₂, hxs₂, hd⟩
              · exact Or.inl h₄
              · exact Or.inr ⟨xs₂, List.mem_cons_of_mem _ hxs₂, hd⟩

theorem getLast?_not_mem {l : List Char} {c : Char} (h : c ∉ l) :
    l.getLast? ≠ some c := by
  intro hc
  cases l with
  | nil => cases hc
  | cons a as =>
      have hne : a :: as ≠ [] := List.cons_ne_nil _ _
      rw [List.getLast?_eq_getLast_of_ne_nil hne] at hc
      have hmem := List.getLast_mem hne
      rw [Option.some_inj.mp hc] at hmem
      exact h hmem

theorem stripCR_eq_self {l : List Char} (h : l.getLast? ≠ some '\r') :
    stripCR l = l := by
  simp [stripCR, h]

theorem stripCRs_eq_self (ls : List (List Char))
    (h : ∀ l ∈ ls, Char.ofNat 13 ∉ l) : stripCRs ls = ls := by
  induction ls with
  | nil => rfl
  | cons x xs ih =>
      cases xs with
      | nil => rfl
      | cons y ys =>
          show stripCR x :: stripCRs (y :: ys) = x :: y :: ys
          rw [stripCR_eq_self (getLast?_not_mem (h x (List.mem_cons_self _ _))),
            ih (fun l hl => h l (List.mem_cons_of_mem _ hl))]

/-! ## Character classes of rendered numbers -/

theorem mem_natToStrAux {fuel n : Nat} {c : Char}
    (h : c ∈ natToStrAux fuel n) : ∃ k, k < 10 ∧ c = digitCh k := by
  induction fuel generalizing n with
  | zero => simp [natToStrAux] at h
  | succ fuel ih =>
      by_cases hn : n < 10
      · rw [natToStrAux, if_pos hn] at h
        rcases List.mem_singleton.mp h with rfl
        exact ⟨n, hn, rfl⟩
      · rw [natToStrAux, if_neg hn] at h
        rcases List.mem_append.mp h with h₂ | h₂
        · exact ih h₂
        · rcases List.mem_singleton.mp h₂ with rfl
          exact ⟨n % 10, Nat.mod_lt _ (by omega), rfl⟩

theorem digitCh_safe :
    ∀ k < 10, digitCh k ≠ ',' ∧ digitCh k ≠ '\n' ∧ digitCh k ≠ '\r' ∧
      digitCh k ≠ '.' := by
  decide

theorem string_data_append (s t : String) : (s ++ t).data = s.data ++ t.data :=
  rfl

theorem mem_natToStr_safe {n : Nat} {c : Char} (h : c ∈ (natToStr n).data) :
    c ≠ ',' ∧ c ≠ '\n' ∧ c ≠ '\r' := by
  rcases mem_natToStrAux h with ⟨k, hk, rfl⟩
  exact ⟨(digitCh_safe k hk).1, (digitCh_safe k hk).2.1, (digitCh_safe k hk).2.2.1⟩

theorem mem_intToStr_safe {i : Int} {c : Char} (h : c ∈ (intToStr i).data) :
    c ≠ ',' ∧ c ≠ '\n' ∧ c ≠ '\r' := by
  unfold intToStr at h
  by_cases hneg : i < 0
  · rw [if_pos hneg, string_data_append] at h
    rcases List.mem_append.mp h with h₂ | h₂
    · rcases List.mem_singleton.mp h₂ with rfl
      refine ⟨by decide, by decide, by decide⟩
    · exact mem_natToStr_safe h₂
  · rw [if_neg hneg] at h
    exact mem_natToStr_safe h

theorem mem_ratToString_safe {q : ℚ} {c : Char} (h : c ∈ (ratToString q).data) :
    c ≠ ',' ∧ c ≠ '\n' ∧ c ≠ '\r' := by
  unfold ratToString at h
  by_cases hden : q.den = 1
  · rw [if_pos hden] at h
    exact mem_intToStr_safe h
  · rw [if_neg hden, string_data_append, string_data_append] at h
    rcases List.mem_append.mp h with h₂ | h₂
    · rcases List.mem_append.mp h₂ with h₃ | h₃
      · exact mem_intToStr_safe h₃
      · rcases List.mem_singleton.mp h₃ with rfl
        refine ⟨by decide, by decide, by decide⟩
    · exact mem_natToStr_safe h₂

theorem natToStrAux_ne_nil (n : Nat) : natToStrAux (n + 1) n ≠ [] := by
  rw [natToStrAux]
  by_cases hn : n < 10
  · simp [hn]
  · simp [hn]

theorem natToStr_ne_nil (n : Nat) : (natToStr n).data ≠ [] :=
  natToStrAux_ne_nil n

theorem intToStr_ne_nil (i : Int) : (intToStr i).data ≠ [] := by
  unfold intToStr
  by_cases hneg : i < 0
  · rw [if_pos hneg, string_data_append]
    simp
  · rw [if_neg hneg]
    exact natToStr_ne_nil _

theorem ratToString_ne_nil (q : ℚ) : (ratToString q).data ≠ [] := by
  unfold ratToString
  by_cases hden : q.den = 1
  · rw [if_pos hden]
    exact intToStr_ne_nil _
  · rw [if_neg hden, string_data_append, string_data_append]
    intro hh
    rcases List.append_eq_nil.mp hh with ⟨h₁, _⟩
    rcases List.append_eq_nil.mp h₁ with ⟨h₂, _⟩
    exact intToStr_ne_nil _ h₂

/-! ## The CSV round trip -/

/-- The identifier regeneration of the import (`uid()`), on the model
level: imported rows carry the placeholder identifier. -/
def stripId (h : Holding) : Holding := { h with id := "" }

/-- Fields containing none of the separator characters the CSV layer
splits on. -/
def noSepChars (l : List Char) : Bool :=
  l.all (fun c => c != ',' && c != '\n' && c != '\r')

/-- A holding the textual CSV encoding can faithfully carry: symbol and
type contain no separator character and are unchanged by `trim`, the type
is non-empty (an empty type cell falls back to "Stock"), and the two
numeric fields reparse to themselves (true of every integral value —
JS re-parses its own decimal renderings exactly, while the embedding's
rendering is exact on integers). -/
def csvSafe (h : Holding) : Bool :=
  noSepChars h.symbol.data && (jsTrim h.symbol == h.symbol) &&
  noSepChars h.type.data && (h.type != "") && (jsTrim h.type == h.type) &&
  (parseNum (ratToString h.quantity) == h.quantity) &&
  (parseNum (ratToString h.costBasisPerUnit) == h.costBasisPerUnit)

theorem string_mk_data (s : String) : String.mk s.data = s := rfl

theorem string_of_data_eq_nil {s : String} (h : s.data = []) : s = "" := by
  cases s
  simp at h
  rw [h]

theorem rowOf_safe (h : Holding) (hsafe : csvSafe h = true) :
    '\n' ∉ rowOf h ∧ '\r' ∉ rowOf h := by
  simp only [csvSafe, noSepChars, Bool.and_eq_true, List.all_eq_true,
    beq_iff_eq, bne_iff_ne, Bool.and_eq_true, decide_eq_true_eq] at hsafe
  obtain ⟨⟨⟨⟨⟨⟨hsymc, _⟩, htyc⟩, _⟩, _⟩, _⟩, _⟩ := hsafe
  constructor
  · intro hmem
    rcases mem_joinCh hmem with hsep | ⟨xs, hxs, hmem₂⟩
    · exact (by decide : ¬ ('\n' : Char) = ',') hsep
    · simp only [List.mem_cons, List.not_mem_nil, or_false] at hxs
      rcases hxs with rfl | rfl | rfl | rfl
      · exact (hsymc _ hmem₂).1.2 rfl
      · exact (htyc _ hmem₂).1.2 rfl
      · exact (mem_ratToString_safe hmem₂).2.1 rfl
      · exact (mem_ratToString_safe hmem₂).2.1 rfl
  · intro hmem
    rcases mem_joinCh hmem with hsep | ⟨xs, hxs, hmem₂⟩
    · exact (by decide : ¬ ('\r' : Char) = ',') hsep
    · simp only [List.mem_cons, List.not_mem_nil, or_false] at hxs
      rcases hxs with rfl | rfl | rfl | rfl
      · exact (hsymc _ hmem₂).2 rfl
      · exact (htyc _ hmem₂).2 rfl
      · exact (mem_ratToString_safe hmem₂).2.2 rfl
      · exact (mem_ratToString_safe hmem₂).2.2 rfl

theorem rowOf_ne_nil (h : Holding) : rowOf h ≠ [] := by
  show h.symbol.data ++ ',' :: joinCh ',' _ ≠ []
  simp

theorem importRow_rowOf (h : Holding) (hsafe : csvSafe h = true) :
    importRow requiredCols (rowOf h) =
      { id := "", symbol := h.symbol, type := h.type,
        quantity := h.quantity, costBasisPerUnit := h.costBasisPerUnit } := by
  simp only [csvSafe, noSepChars, Bool.and_eq_true, List.all_eq_true,
    beq_iff_eq, bne_iff_ne, decide_eq_true_eq] at hsafe
  obtain ⟨⟨⟨⟨⟨⟨hsymc, hsymt⟩, htyc⟩, htyne⟩, htyt⟩, hq⟩, hcb⟩ := hsafe
  have hsymT : trimChars h.symbol.data = h.symbol.data := by
    have h₂ := congrArg String.data hsymt
    simpa [jsTrim] using h₂
  have htyT : trimChars h.type.data = h.type.data := by
    have h₂ := congrArg String.data htyt
    simpa [jsTrim] using h₂
  have htydne : h.type.data ≠ [] := fun hh => htyne (string_of_data_eq_nil hh)
  have hsplit : splitCh ',' (rowOf h) =
      [h.symbol.data, h.type.data, (ratToString h.quantity).data,
       (ratToString h.costBasisPerUnit).data] := by
    apply splitCh_joinCh
    · simp
    · intro xs hxs
      simp only [List.mem_cons, List.mem_singleton, List.not_mem_nil,
        or_false] at hxs
      rcases hxs with rfl | rfl | rfl | rfl
      · intro hmem
        exact (hsymc _ hmem).1.1 rfl
      · intro hmem
        exact (htyc _ hmem).1.1 rfl
      · intro hmem
        exact (mem_ratToString_safe hmem).1 rfl
      · intro hmem
        exact (mem_ratToString_safe hmem).1 rfl
  have h0 : lastIdxOf requiredCols ("symbol".data) = some 0 := by decide
  have h1 : lastIdxOf requiredCols ("type".data) = some 1 := by decide
  have h2 : lastIdxOf requiredCols ("quantity".data) = some 2 := by decide
  have h3 : lastIdxOf requiredCols ("costbasisperunit".data) = some 3 := by
    decide
  unfold importRow
  rw [hsplit, h0, h1, h2, h3]
  simp only [cellAt, List.getD_cons_zero, List.getD_cons_succ]
  rw [if_neg htydne, if_neg (ratToString_ne_nil h.quantity),
    if_neg (ratToString_ne_nil h.costBasisPerUnit)]
  rw [hsymT, htyT, string_mk_data, string_mk_data, string_mk_data,
    string_mk_data, hq, hcb]

theorem csvLines_exportCSV (hs : List Holding)
    (H : ∀ h ∈ hs, csvSafe h = true) :
    csvLines (exportCSV hs) = csvHeader :: hs.map rowOf := by
  have hdata : (exportCSV hs).data =
      csvHeader ++ '\n' :: joinCh '\n' (hs.map rowOf) := rfl
  unfold csvLines
  rw [hdata, splitCh_append '\n' _ _ (by decide)]
  cases hs with
  | nil => decide
  | cons h₀ hs₀ =>
      have hrows : splitCh '\n' (joinCh '\n' ((h₀ :: hs₀).map rowOf)) =
          (h₀ :: hs₀).map rowOf := by
        apply splitCh_joinCh
        · simp
        · intro xs hxs
          rcases List.mem_map.mp hxs with ⟨hh, hhm, rfl⟩
          exact (rowOf_safe hh (H hh hhm)).1
      rw [hrows, stripCRs_eq_self _ ?_, List.filter_eq_self.mpr ?_]
      · intro l hl
        rcases List.mem_cons.mp hl with rfl | hl₂
        · decide
        · rcases List.mem_map.mp hl₂ with ⟨hh, hhm, rfl⟩
          simpa [bne_iff_ne] using rowOf_ne_nil hh
      · intro l hl
        rcases List.mem_cons.mp hl with rfl | hl₂
        · decide
        · rcases List.mem_map.mp hl₂ with ⟨hh, hhm, rfl⟩
          exact (rowOf_safe hh (H hh hhm)).2

/-- C7 amended: exporting a holdings list whose fields the textual CSV
encoding can carry (`csvSafe`: no separator characters in symbol or type,
both trim-stable, type non-empty, numeric fields that reparse exactly —
e.g. integral values) and importing the produced text yields the same
list on every field except the identifier, which is regenerated. -/
theorem csv_export_import_roundTrip (hs prev : List Holding)
    (H : ∀ h ∈ hs, csvSafe h = true) :
    importCSV (exportCSV hs) prev = hs.map stripId := by
  unfold importCSV
  rw [csvLines_exportCSV hs H]
  show (if requiredCols.all (fun k => (colNames csvHeader).contains k)
      then (hs.map rowOf).map (importRow (colNames csvHeader)) else prev) =
    hs.map stripId
  have hcols : colNames csvHeader = requiredCols := by decide
  rw [hcols, if_pos (by decide), List.map_map]
  apply List.map_congr_left
  intro h hh
  show importRow requiredCols (rowOf h) = stripId h
  rw [importRow_rowOf h (H h hh)]
  rfl

/-- A holding whose symbol contains a comma: export does not escape the
comma, so the import splits the row at it. -/
def commaHolding : Holding :=
  { id := "x", symbol := "A,B", type := "ETF", quantity := 5,
    costBasisPerUnit := 100 }

/-- C7 counterexample: exporting `[{symbol := "A,B", ...}]` and importing
the produced text yields a holding whose symbol is `"A"` — NOT equal to
the original on every non-identifier field, refuting the unconditional
round-trip claim. -/
theorem csv_round_trip_comma_cex :
    (importCSV (exportCSV [commaHolding]) []).map (fun h => h.symbol) =
      ["A"] ∧
    ¬ (importCSV (exportCSV [commaHolding]) []).map (fun h => h.symbol) =
      [commaHolding].map (fun h => h.symbol) := by
  constructor <;> decide

/-- The spec's CSV round-trip example holding. -/
def vfvHolding : Holding :=
  { id := "x1", symbol := "VFV", type := "ETF", quantity := 5,
    costBasisPerUnit := 100 }

/-- C7 amended witness (the spec's round-trip example): exporting
`[{symbol := "VFV", type := "ETF", quantity := 5, costBasisPerUnit := 100}]`
and importing the produced text reproduces the holding exactly, up to the
regenerated identifier. -/
theorem csv_round_trip_scenario :
    importCSV (exportCSV [vfvHolding]) [] =
      [{ id := "", symbol := "VFV", type := "ETF", quantity := 5,
         costBasisPerUnit := 100 }] := by
  have h := csv_export_import_roundTrip [vfvHolding] [] (by decide)
  rw [h]
  decide

/-! ## All-or-nothing import (C8) -/

/-- The CSV text has a header line that fails the v2 import's
required-columns check. -/
def headerMissingRequired (text : String) : Bool :=
  match csvLines text with
  | [] => false
  | header :: _ => !(requiredCols.all (fun k => (colNames header).contains k))

/-- C8 amended: the v2 import rejects a CSV whose header line misses a
required column before any mutation: the previously stored holdings list
is returned completely unchanged. -/
theorem import_missing_column_rejected (text : String) (prev : List Holding)
    (h : headerMissingRequired text = true) : importCSV text prev = prev := by
  unfold headerMissingRequired at h
  unfold importCSV
  cases hl : csvLines text with
  | nil => rfl
  | cons header rows =>
      rw [hl] at h
      have h₂ : requiredCols.all (fun k => (colNames header).contains k) =
          false := by simpa using h
      simp only [h₂]
      rfl

/-- Holdings already stored before an import attempt. -/
def prevHoldings : List Holding :=
  [{ id := "p0", symbol := "DOL", type := "Stock", quantity := 10,
     costBasisPerUnit := 120 }]

/-- C8 witness: a CSV whose header misses `quantity` and
`costBasisPerUnit` is rejected by the v2 import, leaving the stored
holdings untouched. -/
theorem import_missing_column_rejected_case :
    headerMissingRequired "symbol,type\nAAA,Stock" = true ∧
    importCSV "symbol,type\nAAA,Stock" prevHoldings = prevHoldings :=
  ⟨by decide, import_missing_column_rejected _ _ (by decide)⟩

/-- Holdings stored before an import attempt on the v1 page. -/
def prevHoldingsV1 : List HoldingV1 :=
  [{ id := "p1", symbol := "OLD", name := "", type := "Stock",
     exchange := "", currency := "CAD", quantity := 1,
     costBasisPerUnit := 1 }]

/-- C8 counterexample: the v1 import (`src/app/page.tsx`) performs NO
required-column validation: the same header that the claim says must be
rejected is accepted, the missing fields are defaulted, and the stored
holdings are replaced — the prior list does not survive. -/
theorem import_v1_missing_column_mutates_cex :
    headerMissingRequired "symbol,type\nAAA,Stock" = true ∧
    importCSVV1 "symbol,type\nAAA,Stock" "CAD" prevHoldingsV1 =
      [{ id := "", symbol := "AAA", name := "", type := "Stock",
         exchange := "", currency := "CAD", quantity := 0,
         costBasisPerUnit := 0 }] ∧
    ¬ importCSVV1 "symbol,type\nAAA,Stock" "CAD" prevHoldingsV1 =
      prevHoldingsV1 := by
  refine ⟨by decide, by decide, by decide⟩

/-- C9 witness: in the request `["AAPL", "BTC"]`, `BTC` (present in the
crypto-id table) lands in the crypto bucket and `AAPL` (absent from it)
in the equity bucket. -/
theorem classifier_partition_case :
    "BTC" ∈ cryptoBucket ["AAPL", "BTC"] ∧
    "AAPL" ∈ equityBucket ["AAPL", "BTC"] :=
  ⟨(classifier_partition ["AAPL", "BTC"] "BTC").1.mpr ⟨by decide, by decide⟩,
   (classifier_partition ["AAPL", "BTC"] "AAPL").2.1.mpr ⟨by decide, by decide⟩⟩
